import Mathlib

/-!
Verification of the Raft consensus core of this repository.

The candidate-side finite state machine is embedded from
`vendor/github.com/tiglabs/raft/raft_fsm_candidate.go`; the transport
sender dispatch is embedded from the transport source.  Functions of the
raft package that the candidate file calls but whose bodies are not part
of the sources here (`reset`, `becomeFollower`, `becomeLeader`,
`becomeElectionAck`, `quorum`, `send`) are modelled from the spec and
carry a doc comment saying so.

Machine integers (`uint64`) are modelled as `Nat`; the one place where
overflow matters (the transport index computation) performs the wrap
`% 2 ^ 64` explicitly and interprets the Go `int` cast as a two's
complement reinterpretation.
-/

namespace CubeRaft

/-- The `NoLeader` constant of the raft package: leader id 0 means no
known leader. -/
def NoLeader : Nat := 0

/-- Fsm states; the source uses `stateFollower`, `stateCandidate`,
`stateElectionAck`, `stateLeader` (the optional pre-candidate state is
not exercised by the candidate file). -/
inductive FsmState
  | follower
  | candidate
  | electionAck
  | leader
  | preCandidate
  deriving DecidableEq, Repr

/-- Message types from `proto` used by `stepCandidate`. -/
inductive MsgType
  | localMsgProp
  | reqMsgAppend
  | reqMsgHeartBeat
  | reqMsgElectAck
  | reqMsgVote
  | respMsgVote
  | respMsgElectAck
  | other
  deriving DecidableEq, Repr

/-- The fields of `proto.Message` relevant to the embedded code.  The
source field `From` is rendered `src` (Lean reserves `from`) and `To`
is `dst`. -/
structure Message where
  mtype : MsgType
  src : Nat
  dst : Nat
  term : Nat
  index : Nat
  logTerm : Nat
  reject : Bool
  forceVote : Bool
  deriving DecidableEq, Repr

/-- A fresh `proto.Message` as produced by `proto.GetMessage`: all
fields zeroed. -/
def Message.zero : Message :=
  { mtype := .other, src := 0, dst := 0, term := 0, index := 0,
    logTerm := 0, reject := false, forceVote := false }

/-- Per-peer replica data: only the learner flag matters to the
candidate code (`r.replicas[id].isLearner`). -/
structure Replica where
  isLearner : Bool
  deriving DecidableEq, Repr

/-- The configuration fields of the fsm used by the candidate file:
`NodeID` and `LeaseCheck`. -/
structure Config where
  nodeID : Nat
  leaseCheck : Bool
  deriving DecidableEq, Repr

/-- The raft log surface needed by `campaign`:
`lastIndexAndTerm()` returns these two numbers. -/
structure RaftLog where
  lastIndex : Nat
  lastTerm : Nat
  deriving DecidableEq, Repr

/-- The fields of `raftFsm` read or written by the candidate file.  The
Go maps `replicas` and `votes` are modelled as association lists (the
map has no intrinsic order; theorems that depend on key-counting take a
no-duplicate-keys hypothesis). -/
structure RaftFsm where
  id : Nat
  term : Nat
  vote : Nat
  leader : Nat
  state : FsmState
  config : Config
  replicas : List (Nat × Replica)
  votes : List (Nat × Bool)
  raftLog : RaftLog
  deriving DecidableEq, Repr

/-- The panic raised through `AppPanicError` in `becomeCandidate`. -/
inductive AppPanic
  | leaderToCandidate
  deriving DecidableEq, Repr

/-- Modelled from the spec: `quorum()` is not among the sources; the
spec defines a quorum as a strict majority of the voters, where learner
peers are not counted in any quorum. -/
def RaftFsm.quorum (r : RaftFsm) : Nat :=
  (r.replicas.filter (fun p => !p.2.isLearner)).length / 2 + 1

/-- Modelled from the spec: `reset(term, lasti, isLeader)` is not among
the sources; on a term change it adopts the new term and clears
`votedFor`, and it always clears the known leader and the vote tally
(progress and timers are out of scope here). -/
def RaftFsm.reset (r : RaftFsm) (term : Nat) : RaftFsm :=
  let r := if r.term ≠ term then { r with term := term, vote := NoLeader } else r
  { r with leader := NoLeader, votes := [] }

/-- Modelled from the spec: `send` stamps the message with the sender id
and the current term before handing it to the transport. -/
def RaftFsm.sendPrep (r : RaftFsm) (m : Message) : Message :=
  { m with src := r.config.nodeID, term := r.term }

/-- Modelled from the spec: `becomeFollower(term, lead)` steps down to
`Follower`, adopting `term` (clearing the vote only when the term
changes, as `reset` does) and recording `lead` as the known leader. -/
def RaftFsm.becomeFollower (r : RaftFsm) (term lead : Nat) : RaftFsm :=
  let r := r.reset term
  { r with leader := lead, state := .follower }

/-- Modelled from the spec: `becomeLeader` keeps the current term and
sets the state to `Leader` with itself as the known leader (progress
re-initialisation and the no-op entry are out of scope here). -/
def RaftFsm.becomeLeader (r : RaftFsm) : RaftFsm :=
  let r := r.reset r.term
  { r with leader := r.config.nodeID, state := .leader }

/-- Modelled from the spec: under lease check a freshly elected leader
first enters `ElectionAck` and broadcasts an `ElectAck` round (the
broadcast itself is out of scope here). -/
def RaftFsm.becomeElectionAck (r : RaftFsm) : RaftFsm :=
  let r := r.reset r.term
  { r with leader := r.config.nodeID, state := .electionAck }

/-- `becomeCandidate` from `raft_fsm_candidate.go`: panics on the
leader-to-candidate transition, otherwise bumps the term through
`reset(term+1)`, votes for itself and enters `Candidate`.  The panic is
rendered as `Except.error`. -/
def becomeCandidate (r : RaftFsm) : Except AppPanic RaftFsm :=
  if r.state = FsmState.leader then
    .error .leaderToCandidate
  else
    let r := r.reset (r.term + 1)
    let r := { r with vote := r.config.nodeID, state := FsmState.candidate }
    .ok r

/-- `poll(id, v)` from `raft_fsm_candidate.go`: records `v` for `id`
only when `id` has no recorded vote yet, then returns the fsm together
with the number of granted votes in the tally.  The Go map insert is
rendered as a cons onto the association list. -/
def poll (r : RaftFsm) (id : Nat) (v : Bool) : RaftFsm × Nat :=
  let votes := if (r.votes.lookup id).isSome then r.votes else (id, v) :: r.votes
  ({ r with votes := votes }, (votes.filter (fun p => p.2)).length)

/-- `stepCandidate` from `raft_fsm_candidate.go`.  Returns the new fsm
and the messages handed to `send`.  `handleAppendEntries` (not among the
sources) is elided: the append branch is modelled only up to its
`becomeFollower` transition, which is all the claims touch. -/
def stepCandidate (r : RaftFsm) (m : Message) : RaftFsm × List Message :=
  match m.mtype with
  | .localMsgProp => (r, [])
  | .reqMsgAppend => (r.becomeFollower r.term m.src, [])
  | .reqMsgHeartBeat => (r.becomeFollower r.term m.src, [])
  | .reqMsgElectAck =>
      let r := r.becomeFollower r.term m.src
      let nmsg := { Message.zero with mtype := .respMsgElectAck, dst := m.src }
      (r, [r.sendPrep nmsg])
  | .reqMsgVote =>
      let nmsg := { Message.zero with mtype := .respMsgVote, dst := m.src, reject := true }
      (r, [r.sendPrep nmsg])
  | .respMsgVote =>
      let (r, gr) := poll r m.src (!m.reject)
      if r.quorum = gr then
        if r.config.leaseCheck then
          (r.becomeElectionAck, [])
        else
          (r.becomeLeader, [])
      else if r.quorum = r.votes.length - gr then
        (r.becomeFollower r.term NoLeader, [])
      else
        (r, [])
  | _ => (r, [])

/-- Insertion into an ascending-sorted list, used to render
`sort.SliceStable(peerIDs, <)`. -/
def insertAsc (x : Nat) : List Nat → List Nat
  | [] => [x]
  | y :: ys => if x ≤ y then x :: y :: ys else y :: insertAsc x ys

/-- Ascending sort of the peer id list. -/
def sortAsc (l : List Nat) : List Nat := l.foldr insertAsc []

/-- `isNeedBecomeFollower` from `raft_fsm_candidate.go`: in `Candidate`
state, collect the replica ids, sort them ascending, and report whether
the id at position `term % len(peerIDs)` is this node. -/
def isNeedBecomeFollower (r : RaftFsm) : Bool :=
  match r.state with
  | .candidate =>
      let peerIDs := sortAsc (r.replicas.map Prod.fst)
      peerIDs[r.term % peerIDs.length]? = some r.config.nodeID
  | _ => false

/-- The vote request built for peer `id` in the send loop of
`campaign`. -/
def mkVoteRequest (r : RaftFsm) (force : Bool) (id : Nat) : Message :=
  r.sendPrep { Message.zero with
    dst := id, mtype := .reqMsgVote, forceVote := force,
    index := r.raftLog.lastIndex, logTerm := r.raftLog.lastTerm }

/-- The part of `campaign(force)` after the `becomeCandidate` call:
count the self vote, win immediately when the self vote alone is a
quorum, and otherwise send a vote request carrying the last log index
and term to every non-learner peer other than itself. -/
def campaignAfterCandidate (r : RaftFsm) (force : Bool) : RaftFsm × List Message :=
  let (r, gr) := poll r r.config.nodeID true
  if r.quorum = gr then
    if r.config.leaseCheck then
      (r.becomeElectionAck, [])
    else
      (r.becomeLeader, [])
  else
    let targets := r.replicas.filter
      (fun p => !(p.1 = r.config.nodeID || p.2.isLearner))
    (r, targets.map (fun p => mkVoteRequest r force p.1))

/-- `campaign(force)` from `raft_fsm_candidate.go`: degrade to follower
when `isNeedBecomeFollower` fires; otherwise become candidate (which can
panic from leader state) and continue with
`campaignAfterCandidate`. -/
def campaign (r : RaftFsm) (force : Bool) : Except AppPanic (RaftFsm × List Message) :=
  if isNeedBecomeFollower r then
    .ok (r.becomeFollower r.term NoLeader, [])
  else
    match becomeCandidate r with
    | .error e => .error e
    | .ok r => .ok (campaignAfterCandidate r force)

/-- Two's complement reinterpretation of a `uint64` value (a natural
number below `2 ^ 64`) as a Go `int` on a 64-bit platform. -/
def toInt64 (u : Nat) : Int :=
  if u < 2 ^ 63 then (u : Int) else (u : Int) - 2 ^ 64

/-- The index computed by the power-of-two branch of the dispatch in
`newTransportSender`: `int(msg.ID&concurrency - 1)` guarded by
`concurrency > 1`.  By Go operator precedence `&` binds tighter than
`-`, so the `uint64` value is `(msg.ID & concurrency) - 1` with wraparound,
then reinterpreted as `int`.  `id` and `c` are `uint64` values, below
`2 ^ 64`. -/
def optimizedIdx (id c : Nat) : Int :=
  if 1 < c then toInt64 ((Nat.land id c + (2 ^ 64 - 1)) % 2 ^ 64) else 0

/-- The index computed by the general branch of the dispatch in
`newTransportSender`: `int(msg.ID % concurrency)` guarded by
`concurrency > 1`. -/
def moduloIdx (id c : Nat) : Int :=
  if 1 < c then toInt64 (id % c) else 0

/-- Error kinds the core surfaces to callers (spec section 7); only the
not-leader kind is needed here. -/
inductive RaftError
  | notLeader (hint : Nat)
  deriving DecidableEq, Repr

/-- Outcome of submitting a proposal to the group runtime. -/
inductive ProposalOutcome
  | rejected (e : RaftError)
  | acceptedByLeader
  deriving DecidableEq, Repr

/-- Modelled from the spec: the group runtime admission of a proposal
(the runtime source is not among the sources here).  A proposal
submitted to a non-leader is rejected with a not-leader kind carrying
the known leader as hint; only on a leader is it stepped into the
fsm. -/
def proposeAdmit (r : RaftFsm) : ProposalOutcome :=
  if r.state = FsmState.leader then .acceptedByLeader
  else .rejected (.notLeader r.leader)

end CubeRaft

open CubeRaft

/-- A three-replica fsm in candidate state used as a concrete test
vehicle: node 1, term 3, voted for itself, one tallied self vote. -/
def candFsm : RaftFsm :=
  { id := 1, term := 3, vote := 1, leader := 0, state := .candidate,
    config := { nodeID := 1, leaseCheck := false },
    replicas := [(1, ⟨false⟩), (2, ⟨false⟩), (3, ⟨false⟩)],
    votes := [(1, true)],
    raftLog := { lastIndex := 7, lastTerm := 2 } }

/-- The same node as a leader. -/
def leadFsm : RaftFsm := { candFsm with state := .leader, leader := 1 }

/-- The same node as a follower with empty tally. -/
def follFsm : RaftFsm := { candFsm with state := .follower, votes := [] }

/-- A RequestVote whose sender coincides with the recorded vote of
`candFsm` (the candidate voted for itself, node 1). -/
def selfVoteReq : Message :=
  { Message.zero with mtype := .reqMsgVote, src := 1, dst := 1, term := 3 }

/-- A proposal message. -/
def propMsg : Message := { Message.zero with mtype := .localMsgProp }

/-- The ids of voting (non-learner) replicas. -/
def voterIDs (r : RaftFsm) : List Nat :=
  (r.replicas.filter (fun p => !p.2.isLearner)).map Prod.fst

namespace ElectionModel

/-- Modelled from the spec: the roles a node can hold during an
election (pre-vote is an optional feature and adds no transition to
`Leader` beyond the candidate path, so it is omitted). -/
inductive Role
  | follower
  | candidate
  | electionAck
  | leader
  deriving DecidableEq, Repr

/-- Modelled from the spec: per-node election state — current term,
role, and the candidate's vote tally (`votes` map). -/
structure NodeSt where
  term : Nat
  role : Role
  votes : Nat → Option Bool

/-- A granted vote response in flight: voter `src` granted `dst` the
vote of term `term`.  The network is monotone (messages are never
removed), which subsumes loss, duplication and reordering for a safety
property. -/
structure VoteGrant where
  src : Nat
  dst : Nat
  term : Nat
  deriving DecidableEq, Repr

/-- Modelled from the spec: the global state of one raft group.
`ledger v T` is the durable `votedFor` record of voter `v` at term `T`
(hard state is persisted before any message depending on it is sent);
`msgs` is the set of granted vote responses ever sent. -/
structure GState where
  node : Nat → NodeSt
  ledger : Nat → Nat → Option Nat
  msgs : VoteGrant → Prop

/-- All nodes start as followers at term 0 with nothing voted and no
messages in flight. -/
def initState : GState :=
  { node := fun _ => { term := 0, role := Role.follower, votes := fun _ => none },
    ledger := fun _ _ => none,
    msgs := fun _ => False }

/-- Effect of the election timeout (`campaign`/`becomeCandidate`):
increment the term, enter `Candidate`, reset the tally to the self
vote, and persist the self vote in the new term. -/
def campaignUpd (n : Nat) (s : GState) : GState :=
  { node := fun m =>
      if m = n then
        { term := (s.node n).term + 1, role := Role.candidate,
          votes := fun v => if v = n then some true else none }
      else s.node m,
    ledger := fun v T =>
      if v = n ∧ T = (s.node n).term + 1 then some n else s.ledger v T,
    msgs := s.msgs }

/-- Effect of voter `v` granting candidate `c` the vote of its current
term: persist `votedFor` and emit the response.  The guard (in `Step`)
is the spec's voting rule: not voted in this term, or voted for the
same candidate. -/
def grantUpd (v c : Nat) (s : GState) : GState :=
  { node := s.node,
    ledger := fun w T =>
      if w = v ∧ T = (s.node v).term then some c else s.ledger w T,
    msgs := fun g => g = ⟨v, c, (s.node v).term⟩ ∨ s.msgs g }

/-- Effect of stepping down to follower at a term at least the current
one: covers the term rule, quorum rejection, heartbeat from a leader
and the degrade check. -/
def stepDownUpd (n T : Nat) (s : GState) : GState :=
  { node := fun m =>
      if m = n then { term := T, role := Role.follower, votes := fun _ => none }
      else s.node m,
    ledger := s.ledger, msgs := s.msgs }

/-- Effect of a candidate recording a delivered grant in its tally with
`poll` semantics: only the first response from a peer is recorded. -/
def recvGrantUpd (n v : Nat) (s : GState) : GState :=
  { node := fun m =>
      if m = n then
        { s.node n with votes := fun w =>
            if w = v then
              (if (s.node n).votes v = none then some true else (s.node n).votes v)
            else (s.node n).votes w }
      else s.node m,
    ledger := s.ledger, msgs := s.msgs }

/-- Effect of a candidate winning on a quorum of tallied grants: it
becomes `Leader`, or `ElectionAck` when lease check is enabled. -/
def winUpd (n : Nat) (lease : Bool) (s : GState) : GState :=
  { node := fun m =>
      if m = n then
        { s.node n with role := if lease then Role.electionAck else Role.leader }
      else s.node m,
    ledger := s.ledger, msgs := s.msgs }

/-- Effect of an `ElectionAck` node acquiring its lease quorum and
completing the transition to `Leader`. -/
def ackWinUpd (n : Nat) (s : GState) : GState :=
  { node := fun m =>
      if m = n then { s.node n with role := Role.leader } else s.node m,
    ledger := s.ledger, msgs := s.msgs }

/-- Modelled from the spec: one election-relevant step of the system of
nodes with voter set `cfg`.  The model over-approximates the source:
vote requests, the log up-to-date check and the lease guard only
restrict when a grant may happen, so dropping them preserves every
reachable behaviour; quorum is a strict majority of the voters and
learners (ids outside `cfg`) never grant. -/
inductive Step (cfg : Finset Nat) : GState → GState → Prop
  | timeout (n : Nat) (s : GState) (h : (s.node n).role ≠ Role.leader) :
      Step cfg s (campaignUpd n s)
  | grant (v c : Nat) (s : GState) (hv : v ∈ cfg)
      (h : s.ledger v (s.node v).term = none ∨ s.ledger v (s.node v).term = some c) :
      Step cfg s (grantUpd v c s)
  | stepDown (n T : Nat) (s : GState) (h : (s.node n).term ≤ T) :
      Step cfg s (stepDownUpd n T s)
  | recvGrant (n v : Nat) (s : GState) (hr : (s.node n).role = Role.candidate)
      (hm : s.msgs ⟨v, n, (s.node n).term⟩) :
      Step cfg s (recvGrantUpd n v s)
  | win (n : Nat) (lease : Bool) (s : GState) (hr : (s.node n).role = Role.candidate)
      (hq : cfg.card / 2 + 1 ≤ (cfg.filter (fun v => (s.node n).votes v = some true)).card) :
      Step cfg s (winUpd n lease s)
  | ackWin (n : Nat) (s : GState) (hr : (s.node n).role = Role.electionAck) :
      Step cfg s (ackWinUpd n s)

/-- States reachable from the initial state under any schedule. -/
inductive Reachable (cfg : Finset Nat) : GState → Prop
  | refl : Reachable cfg initState
  | step {s t : GState} : Reachable cfg s → Step cfg s t → Reachable cfg t

/-- A node never holds a vote record for a term beyond its current
term (hard state is written when the term is adopted). -/
def LedgerFresh (s : GState) : Prop :=
  ∀ n T, (s.node n).term < T → s.ledger n T = none

/-- Every granted vote response in flight is backed by the voter's
persisted `votedFor` for that term. -/
def MsgsLedger (s : GState) : Prop :=
  ∀ g : VoteGrant, s.msgs g → s.ledger g.src g.term = some g.dst

/-- Every grant in a candidate's tally is backed by the peer's
persisted `votedFor` at the candidate's term. -/
def TallyLedger (s : GState) : Prop :=
  ∀ n v, (s.node n).role = Role.candidate → (s.node n).votes v = some true →
    s.ledger v (s.node n).term = some n

/-- Every leader or election-ack node is supported by a quorum of
voters whose persisted votes in its term name it. -/
def LeaderQuorum (cfg : Finset Nat) (s : GState) : Prop :=
  ∀ n, ((s.node n).role = Role.electionAck ∨ (s.node n).role = Role.leader) →
    ∃ Q : Finset Nat, Q ⊆ cfg ∧ cfg.card / 2 + 1 ≤ Q.card ∧
      ∀ v ∈ Q, s.ledger v (s.node n).term = some n

/-- The inductive invariant. -/
def Inv (cfg : Finset Nat) (s : GState) : Prop :=
  LedgerFresh s ∧ MsgsLedger s ∧ TallyLedger s ∧ LeaderQuorum cfg s

end ElectionModel

/-- C10: the two dispatch branches of the transport sender are NOT
equivalent.  At concurrency 4 (a power of two greater than one) and
message id 1, the optimized branch computes
`int((1 & 4) - 1) = int(2 ^ 64 - 1) = -1`, a negative index outside
`[0, 4)` that would panic when indexing the input-channel slice, while
the modulo branch computes `1 % 4 = 1`.  The intended power-of-two trick
`1 & (4 - 1)` would agree with the modulo branch. -/
theorem transport_dispatch_divergence :
    optimizedIdx 1 4 = -1 ∧ moduloIdx 1 4 = 1 ∧ optimizedIdx 1 4 < 0 ∧
      (4 : Nat) = 2 ^ 2 ∧ toInt64 (Nat.land 1 (4 - 1)) = moduloIdx 1 4 := by
  refine ⟨?_, ?_, ?_, ?_, ?_⟩ <;> decide

/-- C7: `becomeCandidate` raises the leader-transitions-backwards panic
exactly from `Leader` state; from any other state it completes the
transition to `Candidate` (with term bumped and a self vote) without
panicking. -/
theorem becomeCandidate_leader_guard (r : RaftFsm) :
    (r.state = FsmState.leader → becomeCandidate r = .error AppPanic.leaderToCandidate) ∧
    (r.state ≠ FsmState.leader →
      ∃ r₂, becomeCandidate r = .ok r₂ ∧ r₂.state = FsmState.candidate ∧
        r₂.term = r.term + 1 ∧ r₂.vote = r.config.nodeID) := by
  constructor
  · intro h
    simp [becomeCandidate, h]
  · intro h
    rw [becomeCandidate, if_neg h]
    refine ⟨_, rfl, rfl, ?_, ?_⟩ <;>
      simp [RaftFsm.reset, Nat.ne_of_lt (Nat.lt_succ_self r.term)]

/-- Witness for C7: the guard fires on the concrete leader fsm and the
concrete follower fsm transitions to candidate at term 4. -/
theorem becomeCandidate_leader_guard_witness :
    becomeCandidate leadFsm = .error AppPanic.leaderToCandidate ∧
    (becomeCandidate follFsm).toOption.map RaftFsm.state = some FsmState.candidate := by
  constructor
  · exact (becomeCandidate_leader_guard leadFsm).1 rfl
  · obtain ⟨r₂, h1, h2, -, -⟩ := (becomeCandidate_leader_guard follFsm).2 (by decide)
    rw [h1]
    simp [Except.toOption, h2]

/-- C9: vote tallying is idempotent per peer — after a first `poll` for
`id`, a second `poll` for the same `id` with any value returns the very
same fsm and the same granted count, so duplicate or contradictory
responses from one peer never change the tally. -/
theorem poll_first_vote_wins (r : RaftFsm) (id : Nat) (v w : Bool) :
    poll (poll r id v).1 id w = poll r id v := by
  unfold poll
  by_cases h : (r.votes.lookup id).isSome
  · simp [h]
  · simp [h, List.lookup]

/-- C4 counterexample: `candFsm` is a candidate at its current term
whose recorded vote equals the requester of `selfVoteReq`, yet
`stepCandidate` replies with a rejection — the claim demands a grant
when the requester equals the recorded vote. -/
theorem stepCandidate_vote_same_candidate_rejected :
    selfVoteReq.src = candFsm.vote ∧ candFsm.state = FsmState.candidate ∧
      selfVoteReq.term = candFsm.term ∧
      (stepCandidate candFsm selfVoteReq).2.map Message.reject = [true] := by
  refine ⟨?_, ?_, ?_, ?_⟩ <;> decide

/-- C4 amended: a node in Candidate state handling a RequestVote at its
current term replies with a single VoteResponse that is always a
rejection — in particular for every requester that differs from its
recorded vote, but also for a requester equal to it. -/
theorem stepCandidate_rejects_every_vote (r : RaftFsm) (m : Message)
    (hs : r.state = FsmState.candidate) (hm : m.mtype = MsgType.reqMsgVote) :
    ∃ nmsg, (stepCandidate r m).2 = [nmsg] ∧ nmsg.reject = true ∧
      nmsg.mtype = MsgType.respMsgVote ∧ nmsg.dst = m.src ∧
      (stepCandidate r m).1 = r := by
  refine ⟨r.sendPrep { Message.zero with mtype := .respMsgVote, dst := m.src, reject := true },
      ?_, ?_, ?_, ?_, ?_⟩ <;>
    simp [stepCandidate, hm, RaftFsm.sendPrep]

/-- Witness for C4 amended: a vote request from node 2 is answered with
a rejection. -/
theorem stepCandidate_rejects_every_vote_witness :
    (stepCandidate candFsm { Message.zero with
        mtype := .reqMsgVote, src := 2, dst := 1, term := 3 }).2.map Message.reject = [true] := by
  obtain ⟨nmsg, h1, h2, -, -, -⟩ :=
    stepCandidate_rejects_every_vote candFsm
      { Message.zero with mtype := .reqMsgVote, src := 2, dst := 1, term := 3 } rfl rfl
  rw [h1]
  simp [h2]

/-- C6: a proposal at a node that is not the leader is answered at the
runtime admission boundary with a not-leader rejection carrying the
known-leader hint, and the candidate step handler itself drops the
proposal without emitting messages — the proposer is notified, never
silently ignored. -/
theorem propose_non_leader_notified (r : RaftFsm) (m : Message)
    (hnl : r.state ≠ FsmState.leader) (hm : m.mtype = MsgType.localMsgProp) :
    proposeAdmit r = .rejected (.notLeader r.leader) ∧ stepCandidate r m = (r, []) := by
  constructor
  · simp [proposeAdmit, hnl]
  · simp [stepCandidate, hm]

/-- Witness for C6: the concrete candidate fsm rejects a proposal with
the not-leader kind. -/
theorem propose_non_leader_notified_witness :
    proposeAdmit candFsm = .rejected (.notLeader 0) ∧
      stepCandidate candFsm propMsg = (candFsm, []) :=
  propose_non_leader_notified candFsm propMsg (by decide) rfl

@[simp] lemma reset_replicas (r : RaftFsm) (t : Nat) : (r.reset t).replicas = r.replicas := by
  unfold RaftFsm.reset
  split <;> rfl

@[simp] lemma reset_config (r : RaftFsm) (t : Nat) : (r.reset t).config = r.config := by
  unfold RaftFsm.reset
  split <;> rfl

@[simp] lemma reset_raftLog (r : RaftFsm) (t : Nat) : (r.reset t).raftLog = r.raftLog := by
  unfold RaftFsm.reset
  split <;> rfl

@[simp] lemma reset_votes (r : RaftFsm) (t : Nat) : (r.reset t).votes = [] := by
  unfold RaftFsm.reset
  split <;> rfl

@[simp] lemma reset_leader (r : RaftFsm) (t : Nat) : (r.reset t).leader = NoLeader := by
  unfold RaftFsm.reset
  split <;> rfl

@[simp] lemma reset_state (r : RaftFsm) (t : Nat) : (r.reset t).state = r.state := by
  unfold RaftFsm.reset
  split <;> rfl

@[simp] lemma reset_term (r : RaftFsm) (t : Nat) : (r.reset t).term = t := by
  unfold RaftFsm.reset
  split
  · rfl
  · next h => exact not_ne_iff.mp h

lemma reset_same_term_vote (r : RaftFsm) : (r.reset r.term).vote = r.vote := by
  unfold RaftFsm.reset
  simp

lemma quorum_replicas_eq {r s : RaftFsm} (h : r.replicas = s.replicas) :
    r.quorum = s.quorum := by
  unfold RaftFsm.quorum
  rw [h]

@[simp] lemma becomeElectionAck_state (r : RaftFsm) :
    r.becomeElectionAck.state = FsmState.electionAck := rfl

@[simp] lemma becomeElectionAck_term (r : RaftFsm) : r.becomeElectionAck.term = r.term :=
  reset_term r r.term

@[simp] lemma becomeElectionAck_vote (r : RaftFsm) : r.becomeElectionAck.vote = r.vote :=
  reset_same_term_vote r

@[simp] lemma becomeElectionAck_replicas (r : RaftFsm) :
    r.becomeElectionAck.replicas = r.replicas := reset_replicas r r.term

@[simp] lemma becomeElectionAck_config (r : RaftFsm) :
    r.becomeElectionAck.config = r.config := reset_config r r.term

@[simp] lemma becomeElectionAck_raftLog (r : RaftFsm) :
    r.becomeElectionAck.raftLog = r.raftLog := reset_raftLog r r.term

@[simp] lemma becomeLeader_state (r : RaftFsm) :
    r.becomeLeader.state = FsmState.leader := rfl

@[simp] lemma becomeLeader_term (r : RaftFsm) : r.becomeLeader.term = r.term :=
  reset_term r r.term

@[simp] lemma becomeLeader_vote (r : RaftFsm) : r.becomeLeader.vote = r.vote :=
  reset_same_term_vote r

@[simp] lemma becomeLeader_replicas (r : RaftFsm) :
    r.becomeLeader.replicas = r.replicas := reset_replicas r r.term

@[simp] lemma becomeLeader_config (r : RaftFsm) :
    r.becomeLeader.config = r.config := reset_config r r.term

@[simp] lemma becomeLeader_raftLog (r : RaftFsm) :
    r.becomeLeader.raftLog = r.raftLog := reset_raftLog r r.term

@[simp] lemma becomeFollower_state (r : RaftFsm) (t l : Nat) :
    (r.becomeFollower t l).state = FsmState.follower := rfl

@[simp] lemma becomeFollower_leader (r : RaftFsm) (t l : Nat) :
    (r.becomeFollower t l).leader = l := rfl

@[simp] lemma becomeFollower_term (r : RaftFsm) (t l : Nat) :
    (r.becomeFollower t l).term = t := reset_term r t

@[simp] lemma becomeFollower_replicas (r : RaftFsm) (t l : Nat) :
    (r.becomeFollower t l).replicas = r.replicas := reset_replicas r t

@[simp] lemma becomeFollower_config (r : RaftFsm) (t l : Nat) :
    (r.becomeFollower t l).config = r.config := reset_config r t

lemma becomeFollower_same_term_vote (r : RaftFsm) (l : Nat) :
    (r.becomeFollower r.term l).vote = r.vote := reset_same_term_vote r

lemma becomeCandidate_ok (r : RaftFsm) (hnl : r.state ≠ FsmState.leader) :
    becomeCandidate r =
      .ok { r.reset (r.term + 1) with vote := r.config.nodeID, state := FsmState.candidate } := by
  rw [becomeCandidate, if_neg hnl]
  dsimp only
  rw [reset_config]

lemma poll_fresh (c : RaftFsm) (id : Nat) (hv : c.votes = []) :
    poll c id true = ({ c with votes := [(id, true)] }, 1) := by
  unfold poll
  rw [hv]
  rfl

lemma campaignAfterCandidate_spec (c : RaftFsm) (force : Bool) (hv : c.votes = []) :
    (c.quorum ≠ 1 → campaignAfterCandidate c force =
        ({ c with votes := [(c.config.nodeID, true)] },
         (c.replicas.filter (fun p => !(p.1 = c.config.nodeID || p.2.isLearner))).map
           (fun p => mkVoteRequest { c with votes := [(c.config.nodeID, true)] } force p.1))) ∧
    (c.quorum = 1 → campaignAfterCandidate c force =
        if c.config.leaseCheck then
          (({ c with votes := [(c.config.nodeID, true)] } : RaftFsm).becomeElectionAck, [])
        else (({ c with votes := [(c.config.nodeID, true)] } : RaftFsm).becomeLeader, [])) := by
  unfold campaignAfterCandidate
  rw [poll_fresh c c.config.nodeID hv]
  dsimp only
  constructor
  · intro hq
    rw [if_neg (show ¬({ c with votes := [(c.config.nodeID, true)] } : RaftFsm).quorum = 1 from hq)]
  · intro hq
    rw [if_pos (show ({ c with votes := [(c.config.nodeID, true)] } : RaftFsm).quorum = 1 from hq)]

lemma campaign_proceed (r : RaftFsm) (force : Bool) (hnl : r.state ≠ FsmState.leader)
    (hnf : isNeedBecomeFollower r = false) :
    ∃ r₂ msgs, campaign r force = .ok (r₂, msgs) ∧
      r₂.term = r.term + 1 ∧ r₂.vote = r.config.nodeID ∧
      r₂.replicas = r.replicas ∧ r₂.config = r.config ∧ r₂.raftLog = r.raftLog ∧
      (r.quorum ≠ 1 → r₂.state = FsmState.candidate ∧
        msgs = (r.replicas.filter (fun p => !(p.1 = r.config.nodeID || p.2.isLearner))).map
          (fun p => mkVoteRequest r₂ force p.1)) ∧
      (r.quorum = 1 → msgs = [] ∧
        r₂.state = (if r.config.leaseCheck then FsmState.electionAck else FsmState.leader)) := by
  have hcmp : campaign r force =
      .ok (campaignAfterCandidate
        { r.reset (r.term + 1) with vote := r.config.nodeID, state := FsmState.candidate } force) := by
    unfold campaign
    rw [if_neg (by simp [hnf]), becomeCandidate_ok r hnl]
  set c : RaftFsm :=
    { r.reset (r.term + 1) with vote := r.config.nodeID, state := FsmState.candidate } with hc
  have hcv : c.votes = [] := by rw [hc]; exact reset_votes r (r.term + 1)
  have hcq : c.quorum = r.quorum := by
    apply quorum_replicas_eq
    rw [hc]
    exact reset_replicas r (r.term + 1)
  have hcrep : c.replicas = r.replicas := by rw [hc]; exact reset_replicas r (r.term + 1)
  have hccfg : c.config = r.config := by rw [hc]; exact reset_config r (r.term + 1)
  have hclog : c.raftLog = r.raftLog := by rw [hc]; exact reset_raftLog r (r.term + 1)
  have hcterm : c.term = r.term + 1 := by rw [hc]; exact reset_term r (r.term + 1)
  have hcvote : c.vote = r.config.nodeID := by rw [hc]
  have hcstate : c.state = FsmState.candidate := by rw [hc]
  obtain ⟨hno, hyes⟩ := campaignAfterCandidate_spec c force hcv
  by_cases hq : r.quorum = 1
  · have heq := hyes (hcq.trans hq)
    by_cases hl : c.config.leaseCheck
    · rw [if_pos hl] at heq
      have hl' : r.config.leaseCheck = true := by rw [← hccfg]; exact hl
      refine ⟨({ c with votes := [(c.config.nodeID, true)] } : RaftFsm).becomeElectionAck, [],
        by rw [hcmp, heq], ?_, ?_, ?_, ?_, ?_, fun h => absurd hq h, fun _ => ⟨rfl, ?_⟩⟩
      · simp [hcterm]
      · simp [hcvote]
      · simp [hcrep]
      · simp [hccfg]
      · simp [hclog]
      · simp [hl']
    · rw [if_neg hl] at heq
      have hl' : r.config.leaseCheck = false := by rw [← hccfg]; simpa using hl
      refine ⟨({ c with votes := [(c.config.nodeID, true)] } : RaftFsm).becomeLeader, [],
        by rw [hcmp, heq], ?_, ?_, ?_, ?_, ?_, fun h => absurd hq h, fun _ => ⟨rfl, ?_⟩⟩
      · simp [hcterm]
      · simp [hcvote]
      · simp [hcrep]
      · simp [hccfg]
      · simp [hclog]
      · simp [hl']
  · have heq := hno (by rw [hcq]; exact hq)
    refine ⟨({ c with votes := [(c.config.nodeID, true)] } : RaftFsm), _,
      by rw [hcmp, heq], ?_, ?_, ?_, ?_, ?_, fun _ => ⟨?_, ?_⟩, fun h => absurd h hq⟩
    · exact hcterm
    · exact hcvote
    · exact hcrep
    · exact hccfg
    · exact hclog
    · exact hcstate
    · simp only [hcrep, hccfg, reset_config, reset_replicas]

lemma lookup_isSome_iff (l : List (Nat × Bool)) (k : Nat) :
    (l.lookup k).isSome ↔ k ∈ l.map Prod.fst := by
  induction l with
  | nil => simp [List.lookup]
  | cons p t ih =>
      obtain ⟨a, b⟩ := p
      by_cases h : k = a
      · subst h
        simp [List.lookup]
      · rw [List.lookup]
        simp [beq_false_of_ne h, h, ih]

lemma quorum_voterIDs (r : RaftFsm) : r.quorum = (voterIDs r).length / 2 + 1 := by
  unfold RaftFsm.quorum voterIDs
  rw [List.length_map]

/-- C2: a candidate processing a `RespMsgVote` becomes `Leader`
(`ElectionAck` under lease check) when the granted tally reaches the
quorum, and steps down to `Follower` with no known leader and an
unchanged term when the rejection tally reaches the quorum.  The
hypotheses say that the tallied votes are recorded for distinct voting
peers, which holds in every run because learners are never asked to
vote. -/
theorem stepCandidate_vote_tally (r : RaftFsm) (m : Message)
    (hm : m.mtype = MsgType.respMsgVote)
    (hs : r.state = FsmState.candidate)
    (hnv : (r.votes.map Prod.fst).Nodup)
    (hsubv : ∀ k ∈ r.votes.map Prod.fst, k ∈ voterIDs r)
    (hsrc : m.src ∈ voterIDs r) :
    ((poll r m.src (!m.reject)).2 = r.quorum →
      (stepCandidate r m).1.state =
        (if r.config.leaseCheck then FsmState.electionAck else FsmState.leader)) ∧
    ((poll r m.src (!m.reject)).1.votes.length - (poll r m.src (!m.reject)).2 = r.quorum →
      (stepCandidate r m).1.state = FsmState.follower ∧
      (stepCandidate r m).1.leader = NoLeader ∧
      (stepCandidate r m).1.term = r.term) := by
  have hred : stepCandidate r m =
      (if r.quorum = (poll r m.src (!m.reject)).2 then
        if r.config.leaseCheck then ((poll r m.src (!m.reject)).1.becomeElectionAck, [])
        else ((poll r m.src (!m.reject)).1.becomeLeader, [])
      else if r.quorum =
          (poll r m.src (!m.reject)).1.votes.length - (poll r m.src (!m.reject)).2 then
        ((poll r m.src (!m.reject)).1.becomeFollower r.term NoLeader, [])
      else ((poll r m.src (!m.reject)).1, [])) := by
    unfold stepCandidate
    rw [hm]
    rfl
  have hkeys : ((poll r m.src (!m.reject)).1.votes.map Prod.fst).Nodup ∧
      ∀ k ∈ (poll r m.src (!m.reject)).1.votes.map Prod.fst, k ∈ voterIDs r := by
    have hv1 : (poll r m.src (!m.reject)).1.votes =
        (if (r.votes.lookup m.src).isSome then r.votes
         else (m.src, !m.reject) :: r.votes) := rfl
    by_cases hmem : (r.votes.lookup m.src).isSome
    · rw [hv1, if_pos hmem]
      exact ⟨hnv, hsubv⟩
    · rw [hv1, if_neg hmem]
      have hnotin : m.src ∉ r.votes.map Prod.fst :=
        fun hin => hmem ((lookup_isSome_iff r.votes m.src).mpr hin)
      refine ⟨List.Nodup.cons hnotin hnv, ?_⟩
      intro k hk
      rcases List.mem_cons.mp hk with hk | hk
      · rw [hk]; exact hsrc
      · exact hsubv k hk
  have hlen : (poll r m.src (!m.reject)).1.votes.length ≤ (voterIDs r).length := by
    have h1 : ((poll r m.src (!m.reject)).1.votes.map Prod.fst).length ≤
        (voterIDs r).length :=
      (hkeys.1.subperm hkeys.2).length_le
    rw [List.length_map] at h1
    exact h1
  have hgrle : (poll r m.src (!m.reject)).2 ≤ (poll r m.src (!m.reject)).1.votes.length :=
    List.length_filter_le _ _
  constructor
  · intro hgr
    rw [hred, if_pos hgr.symm]
    by_cases hl : r.config.leaseCheck
    · rw [if_pos hl, if_pos hl]
      simp
    · rw [if_neg hl, if_neg hl]
      simp
  · intro hrej
    have hq1 : ¬ r.quorum = (poll r m.src (!m.reject)).2 := by
      have hquo := quorum_voterIDs r
      omega
    rw [hred, if_neg hq1, if_pos hrej.symm]
    refine ⟨?_, ?_, ?_⟩ <;> simp

/-- Witness for C2: on the concrete three-voter candidate, a grant from
node 2 reaches the two-vote quorum and the node becomes leader. -/
theorem stepCandidate_vote_tally_witness :
    (stepCandidate candFsm
      { Message.zero with mtype := .respMsgVote, src := 2, term := 3 }).1.state =
      FsmState.leader := by
  have h := (stepCandidate_vote_tally candFsm
      { Message.zero with mtype := .respMsgVote, src := 2, term := 3 }
      rfl rfl (by decide) (by decide) (by decide)).1 (by decide)
  simpa [candFsm] using h

lemma insertAsc_length (x : Nat) (l : List Nat) :
    (insertAsc x l).length = l.length + 1 := by
  induction l with
  | nil => rfl
  | cons y ys ih =>
      unfold insertAsc
      split
      · rfl
      · simp [ih]

lemma sortAsc_length (l : List Nat) : (sortAsc l).length = l.length := by
  induction l with
  | nil => rfl
  | cons x xs ih =>
      unfold sortAsc at ih ⊢
      simp [insertAsc_length, ih]

lemma isNeedBecomeFollower_iff (r : RaftFsm) :
    isNeedBecomeFollower r = true ↔
      (r.state = FsmState.candidate ∧
        (sortAsc (r.replicas.map Prod.fst))[r.term % r.replicas.length]? =
          some r.config.nodeID) := by
  cases hs : r.state <;>
    simp [isNeedBecomeFollower, hs, sortAsc_length]

/-- C3 counterexample: `candFsm` is a candidate at term 3 with sorted
peer ids `[1, 2, 3]`; position `3 % 3 = 0` holds its own id 1, so the
timer-driven `campaign` call steps it down to follower at the SAME term
3 with no new election round — the claim demands role candidate at term
4 with a self vote on every campaign invocation. -/
theorem campaign_no_increment_counterexample :
    (campaign candFsm false).toOption.map (fun p => (p.1.state, p.1.term, p.2)) =
      some (FsmState.follower, 3, []) ∧
    candFsm.state = FsmState.candidate ∧ candFsm.term = 3 ∧
    FsmState.follower ≠ FsmState.candidate ∧ (3 : Nat) ≠ 3 + 1 := by
  refine ⟨?_, ?_, ?_, ?_, ?_⟩ <;> decide

/-- C3 amended: when the election timer invokes `campaign` on a
non-leader and the degrade-to-follower check does not fire, the node
increments its term by exactly one, records a self vote, and enters
`Candidate` (continuing immediately to leader or election-ack only when
its own vote is already a quorum); when the degrade check fires (the
node is already a candidate whose id sits at position term mod peers in
the sorted id list), it instead becomes `Follower` keeping its current
term and vote. -/
theorem campaign_term_increment (r : RaftFsm) (force : Bool)
    (hnl : r.state ≠ FsmState.leader) :
    (isNeedBecomeFollower r = false →
      ∃ r₂ msgs, campaign r force = .ok (r₂, msgs) ∧ r₂.term = r.term + 1 ∧
        r₂.vote = r.config.nodeID ∧ (r.quorum ≠ 1 → r₂.state = FsmState.candidate)) ∧
    (isNeedBecomeFollower r = true →
      campaign r force = .ok (r.becomeFollower r.term NoLeader, []) ∧
      (r.becomeFollower r.term NoLeader).state = FsmState.follower ∧
      (r.becomeFollower r.term NoLeader).term = r.term ∧
      (r.becomeFollower r.term NoLeader).vote = r.vote) := by
  constructor
  · intro hnf
    obtain ⟨r₂, msgs, h1, h2, h3, -, -, -, h7, -⟩ := campaign_proceed r force hnl hnf
    exact ⟨r₂, msgs, h1, h2, h3, fun hq => (h7 hq).1⟩
  · intro hf
    refine ⟨?_, rfl, becomeFollower_term r r.term NoLeader, becomeFollower_same_term_vote r NoLeader⟩
    simp [campaign, hf]

/-- Witness for C3 amended: the concrete follower campaigns to term 4
as a candidate with a self vote, and the concrete degrade-position
candidate steps down keeping term 3. -/
theorem campaign_term_increment_witness :
    (campaign follFsm false).toOption.map (fun p => (p.1.term, p.1.vote, p.1.state)) =
      some (4, 1, FsmState.candidate) ∧
    campaign candFsm false = .ok (candFsm.becomeFollower candFsm.term NoLeader, []) := by
  constructor
  · obtain ⟨r₂, msgs, h1, h2, h3, h4⟩ :=
      (campaign_term_increment follFsm false (by decide)).1 (by decide)
    rw [h1]
    simp [Except.toOption, h2, h3, h4 (by decide), follFsm, candFsm]
  · exact ((campaign_term_increment candFsm false (by decide)).2 (by decide)).1

/-- C8: if `campaign` is invoked on a non-leader then exactly when the
node is already in `Candidate` state and its own id occupies position
(term mod number-of-replicas) of the ascending-sorted replica id list,
it reverts to `Follower` with no leader known, keeping term and vote;
in every other case it proceeds to become `Candidate` (term incremented,
self vote recorded). -/
theorem campaign_degrade_rule (r : RaftFsm) (force : Bool)
    (hnl : r.state ≠ FsmState.leader) :
    ((r.state = FsmState.candidate ∧
        (sortAsc (r.replicas.map Prod.fst))[r.term % r.replicas.length]? =
          some r.config.nodeID) →
      campaign r force = .ok (r.becomeFollower r.term NoLeader, []) ∧
      (r.becomeFollower r.term NoLeader).state = FsmState.follower ∧
      (r.becomeFollower r.term NoLeader).leader = NoLeader ∧
      (r.becomeFollower r.term NoLeader).term = r.term ∧
      (r.becomeFollower r.term NoLeader).vote = r.vote) ∧
    (¬(r.state = FsmState.candidate ∧
        (sortAsc (r.replicas.map Prod.fst))[r.term % r.replicas.length]? =
          some r.config.nodeID) →
      ∃ r₂ msgs, campaign r force = .ok (r₂, msgs) ∧ r₂.term = r.term + 1 ∧
        r₂.vote = r.config.nodeID ∧ (r.quorum ≠ 1 → r₂.state = FsmState.candidate)) := by
  constructor
  · intro hcond
    have hf : isNeedBecomeFollower r = true := (isNeedBecomeFollower_iff r).mpr hcond
    refine ⟨?_, rfl, rfl, becomeFollower_term r r.term NoLeader,
      becomeFollower_same_term_vote r NoLeader⟩
    simp [campaign, hf]
  · intro hcond
    have hne : ¬ isNeedBecomeFollower r = true :=
      fun h => hcond ((isNeedBecomeFollower_iff r).mp h)
    have hf : isNeedBecomeFollower r = false := by simpa using hne
    obtain ⟨r₂, msgs, h1, h2, h3, -, -, -, h7, -⟩ := campaign_proceed r force hnl hf
    exact ⟨r₂, msgs, h1, h2, h3, fun hq => (h7 hq).1⟩

/-- Witness for C8: the degrade position fires on the concrete
candidate, and a candidate moved to term 4 is off the degrade position
(4 mod 3 = 1 selects id 2, not 1) so it starts a new round at term 5. -/
theorem campaign_degrade_rule_witness :
    campaign candFsm false = .ok (candFsm.becomeFollower candFsm.term NoLeader, []) ∧
    (campaign { candFsm with term := 4 } false).toOption.map
        (fun p => (p.1.term, p.1.state)) = some (5, FsmState.candidate) := by
  constructor
  · exact ((campaign_degrade_rule candFsm false (by decide)).1 (by decide)).1
  · obtain ⟨r₂, msgs, h1, h2, h3, h4⟩ :=
      (campaign_degrade_rule { candFsm with term := 4 } false (by decide)).2 (by decide)
    rw [h1]
    simp [Except.toOption, h2, h4 (by decide), candFsm]

/-- C5: when a non-leader campaigns without degrading and its own vote
is not already a quorum, the vote requests it emits go exactly to the
non-learner peers other than itself, each carrying the last log index
and last log term; no learner receives one. -/
theorem campaign_vote_requests (r : RaftFsm) (force : Bool)
    (hnl : r.state ≠ FsmState.leader) (hnf : isNeedBecomeFollower r = false)
    (hq : r.quorum ≠ 1) :
    ∃ r₂ msgs, campaign r force = .ok (r₂, msgs) ∧
      (∀ p ∈ r.replicas, p.1 ≠ r.config.nodeID → p.2.isLearner = false →
        mkVoteRequest r₂ force p.1 ∈ msgs ∧
        (mkVoteRequest r₂ force p.1).dst = p.1 ∧
        (mkVoteRequest r₂ force p.1).mtype = MsgType.reqMsgVote ∧
        (mkVoteRequest r₂ force p.1).index = r.raftLog.lastIndex ∧
        (mkVoteRequest r₂ force p.1).logTerm = r.raftLog.lastTerm) ∧
      (∀ mm ∈ msgs, mm.mtype = MsgType.reqMsgVote ∧ mm.dst ≠ r.config.nodeID ∧
        ∃ p ∈ r.replicas, p.1 = mm.dst ∧ p.2.isLearner = false) := by
  obtain ⟨r₂, msgs, h1, -, -, -, -, hlog, h7, -⟩ := campaign_proceed r force hnl hnf
  obtain ⟨-, hmsgs⟩ := h7 hq
  subst hmsgs
  refine ⟨r₂, _, h1, ?_, ?_⟩
  · intro p hp hpn hpl
    refine ⟨?_, rfl, rfl, ?_, ?_⟩
    · exact List.mem_map_of_mem _ (List.mem_filter.mpr ⟨hp, by simp [hpn, hpl]⟩)
    · show r₂.raftLog.lastIndex = r.raftLog.lastIndex
      rw [hlog]
    · show r₂.raftLog.lastTerm = r.raftLog.lastTerm
      rw [hlog]
  · intro mm hmm
    obtain ⟨p, hpf, hmk⟩ := List.mem_map.mp hmm
    obtain ⟨hpmem, hcond⟩ := List.mem_filter.mp hpf
    have hcond2 : ¬(p.1 = r.config.nodeID) ∧ p.2.isLearner = false := by
      simpa using hcond
    refine ⟨?_, ?_, p, hpmem, ?_, hcond2.2⟩
    · rw [← hmk]
      rfl
    · rw [← hmk]
      exact hcond2.1
    · rw [← hmk]
      rfl

/-- Witness for C5: the concrete follower campaigns and its request
list contains the request to the non-learner peer 2. -/
theorem campaign_vote_requests_witness :
    (match campaign follFsm false with
     | .ok (r₂, msgs) => mkVoteRequest r₂ false 2 ∈ msgs
     | .error _ => False) := by
  obtain ⟨r₂, msgs, h1, h2, -⟩ :=
    campaign_vote_requests follFsm false (by decide) (by decide) (by decide)
  rw [h1]
  exact (h2 (2, ⟨false⟩) (by decide) (by decide) (by decide)).1


namespace ElectionModel

@[simp] lemma campaignUpd_node_self (n : Nat) (s : GState) :
    (campaignUpd n s).node n =
      { term := (s.node n).term + 1, role := Role.candidate,
        votes := fun v => if v = n then some true else none } := by
  simp [campaignUpd]

@[simp] lemma campaignUpd_node_other {m n : Nat} (s : GState) (h : m ≠ n) :
    (campaignUpd n s).node m = s.node m := by
  simp [campaignUpd, h]

@[simp] lemma campaignUpd_msgs (n : Nat) (s : GState) :
    (campaignUpd n s).msgs = s.msgs := rfl

lemma campaignUpd_ledger (n v T : Nat) (s : GState) :
    (campaignUpd n s).ledger v T =
      (if v = n ∧ T = (s.node n).term + 1 then some n else s.ledger v T) := rfl

lemma inv_campaignUpd (cfg : Finset Nat) (s : GState) (n : Nat) (hInv : Inv cfg s) :
    Inv cfg (campaignUpd n s) := by
  obtain ⟨hF, hM, hT, hL⟩ := hInv
  have hfresh : s.ledger n ((s.node n).term + 1) = none := hF n _ (Nat.lt_succ_self _)
  have hled : ∀ v T, s.ledger v T ≠ none →
      (campaignUpd n s).ledger v T = s.ledger v T := by
    intro v T hne
    rw [campaignUpd_ledger]
    rcases Decidable.em (v = n ∧ T = (s.node n).term + 1) with hc | hc
    · exact absurd (hc.1 ▸ hc.2 ▸ hfresh) hne
    · rw [if_neg hc]
  refine ⟨?_, ?_, ?_, ?_⟩
  · intro m T hlt
    rw [campaignUpd_ledger]
    by_cases hm : m = n
    · subst hm
      rw [campaignUpd_node_self] at hlt
      dsimp only at hlt
      rw [if_neg (by rintro ⟨-, hT2⟩; omega)]
      exact hF m T (by omega)
    · rw [campaignUpd_node_other s hm] at hlt
      rw [if_neg (by rintro ⟨h1, -⟩; exact hm h1)]
      exact hF m T hlt
  · intro g hg
    rw [campaignUpd_msgs] at hg
    have := hM g hg
    rw [hled g.src g.term (by rw [this]; exact fun hcon => Option.noConfusion hcon)]
    exact this
  · intro m v hrole hvote
    by_cases hm : m = n
    · subst hm
      rw [campaignUpd_node_self] at hrole hvote ⊢
      dsimp at hvote ⊢
      by_cases hv : v = m
      · subst hv
        rw [campaignUpd_ledger, if_pos ⟨rfl, rfl⟩]
      · rw [if_neg hv] at hvote
        exact Option.noConfusion hvote
    · rw [campaignUpd_node_other s hm] at hrole hvote ⊢
      have := hT m v hrole hvote
      rw [hled v _ (by rw [this]; exact fun hcon => Option.noConfusion hcon)]
      exact this
  · intro m hrole
    by_cases hm : m = n
    · subst hm
      rw [campaignUpd_node_self] at hrole
      dsimp at hrole
      rcases hrole with h | h <;> exact Role.noConfusion h
    · rw [campaignUpd_node_other s hm] at hrole ⊢
      obtain ⟨Q, hQ1, hQ2, hQ3⟩ := hL m hrole
      refine ⟨Q, hQ1, hQ2, ?_⟩
      intro v hv
      have := hQ3 v hv
      rw [hled v _ (by rw [this]; exact fun hcon => Option.noConfusion hcon)]
      exact this

end ElectionModel

namespace ElectionModel

lemma grantUpd_ledger (v c w T : Nat) (s : GState) :
    (grantUpd v c s).ledger w T =
      (if w = v ∧ T = (s.node v).term then some c else s.ledger w T) := rfl

lemma inv_grantUpd (cfg : Finset Nat) (s : GState) (v c : Nat) (hInv : Inv cfg s)
    (h : s.ledger v (s.node v).term = none ∨ s.ledger v (s.node v).term = some c) :
    Inv cfg (grantUpd v c s) := by
  obtain ⟨hF, hM, hT, hL⟩ := hInv
  have hpres : ∀ w T x, s.ledger w T = some x → (grantUpd v c s).ledger w T = some x := by
    intro w T x hx
    rw [grantUpd_ledger]
    rcases Decidable.em (w = v ∧ T = (s.node v).term) with ⟨h1, h2⟩ | hc
    · subst h1
      subst h2
      rcases h with hnone | hsome
      · rw [hx] at hnone
        exact Option.noConfusion hnone
      · rw [hx] at hsome
        rw [if_pos ⟨rfl, rfl⟩, ← hsome]
    · rw [if_neg hc]
      exact hx
  refine ⟨?_, ?_, ?_, ?_⟩
  · intro m T hlt
    rw [grantUpd_ledger]
    rw [if_neg ?_]
    · exact hF m T hlt
    · rintro ⟨rfl, rfl⟩
      exact absurd hlt (lt_irrefl _)
  · intro g hg
    have hg2 : g = ⟨v, c, (s.node v).term⟩ ∨ s.msgs g := hg
    rcases hg2 with rfl | hg2
    · rw [grantUpd_ledger]
      rw [if_pos ⟨rfl, rfl⟩]
    · exact hpres _ _ _ (hM g hg2)
  · intro m w hrole hvote
    exact hpres _ _ _ (hT m w hrole hvote)
  · intro m hrole
    obtain ⟨Q, h1, h2, h3⟩ := hL m hrole
    exact ⟨Q, h1, h2, fun w hw => hpres _ _ _ (h3 w hw)⟩

@[simp] lemma stepDownUpd_node_self (n T : Nat) (s : GState) :
    (stepDownUpd n T s).node n =
      { term := T, role := Role.follower, votes := fun _ => none } := by
  simp [stepDownUpd]

@[simp] lemma stepDownUpd_node_other {m n : Nat} (T : Nat) (s : GState) (h : m ≠ n) :
    (stepDownUpd n T s).node m = s.node m := by
  simp [stepDownUpd, h]

lemma inv_stepDownUpd (cfg : Finset Nat) (s : GState) (n T : Nat) (hInv : Inv cfg s)
    (h : (s.node n).term ≤ T) : Inv cfg (stepDownUpd n T s) := by
  obtain ⟨hF, hM, hT, hL⟩ := hInv
  refine ⟨?_, ?_, ?_, ?_⟩
  · intro m T' hlt
    show s.ledger m T' = none
    by_cases hm : m = n
    · subst hm
      rw [stepDownUpd_node_self] at hlt
      dsimp only at hlt
      exact hF m T' (by omega)
    · rw [stepDownUpd_node_other T s hm] at hlt
      exact hF m T' hlt
  · intro g hg
    exact hM g hg
  · intro m w hrole hvote
    by_cases hm : m = n
    · subst hm
      rw [stepDownUpd_node_self] at hrole
      exact Role.noConfusion hrole
    · rw [stepDownUpd_node_other T s hm] at hrole hvote ⊢
      exact hT m w hrole hvote
  · intro m hrole
    by_cases hm : m = n
    · subst hm
      rw [stepDownUpd_node_self] at hrole
      dsimp only at hrole
      rcases hrole with h2 | h2 <;> exact Role.noConfusion h2
    · rw [stepDownUpd_node_other T s hm] at hrole ⊢
      exact hL m hrole

@[simp] lemma recvGrantUpd_node_self (n v : Nat) (s : GState) :
    (recvGrantUpd n v s).node n =
      { s.node n with votes := fun w =>
          if w = v then
            (if (s.node n).votes v = none then some true else (s.node n).votes v)
          else (s.node n).votes w } := by
  simp [recvGrantUpd]

@[simp] lemma recvGrantUpd_node_other {m n : Nat} (v : Nat) (s : GState) (h : m ≠ n) :
    (recvGrantUpd n v s).node m = s.node m := by
  simp [recvGrantUpd, h]

lemma inv_recvGrantUpd (cfg : Finset Nat) (s : GState) (n v : Nat) (hInv : Inv cfg s)
    (hr : (s.node n).role = Role.candidate)
    (hm : s.msgs ⟨v, n, (s.node n).term⟩) : Inv cfg (recvGrantUpd n v s) := by
  obtain ⟨hF, hM, hT, hL⟩ := hInv
  refine ⟨?_, ?_, ?_, ?_⟩
  · intro m T hlt
    show s.ledger m T = none
    by_cases hmn : m = n
    · subst hmn
      rw [recvGrantUpd_node_self] at hlt
      dsimp only at hlt
      exact hF m T hlt
    · rw [recvGrantUpd_node_other v s hmn] at hlt
      exact hF m T hlt
  · intro g hg
    exact hM g hg
  · intro m w hrole hvote
    by_cases hmn : m = n
    · subst hmn
      rw [recvGrantUpd_node_self] at hrole hvote ⊢
      dsimp only at hrole hvote ⊢
      by_cases hw : w = v
      · subst hw
        rw [if_pos rfl] at hvote
        by_cases hnone : (s.node m).votes w = none
        · exact hM _ hm
        · rw [if_neg hnone] at hvote
          exact hT m w hr hvote
      · rw [if_neg hw] at hvote
        exact hT m w hr hvote
    · rw [recvGrantUpd_node_other v s hmn] at hrole hvote ⊢
      exact hT m w hrole hvote
  · intro m hrole
    by_cases hmn : m = n
    · subst hmn
      rw [recvGrantUpd_node_self] at hrole
      dsimp only at hrole
      rw [hr] at hrole
      rcases hrole with h2 | h2 <;> exact Role.noConfusion h2
    · rw [recvGrantUpd_node_other v s hmn] at hrole ⊢
      exact hL m hrole

@[simp] lemma winUpd_node_self (n : Nat) (lease : Bool) (s : GState) :
    (winUpd n lease s).node n =
      { s.node n with role := if lease then Role.electionAck else Role.leader } := by
  simp [winUpd]

@[simp] lemma winUpd_node_other {m n : Nat} (lease : Bool) (s : GState) (h : m ≠ n) :
    (winUpd n lease s).node m = s.node m := by
  simp [winUpd, h]

lemma inv_winUpd (cfg : Finset Nat) (s : GState) (n : Nat) (lease : Bool) (hInv : Inv cfg s)
    (hr : (s.node n).role = Role.candidate)
    (hq : cfg.card / 2 + 1 ≤ (cfg.filter (fun v => (s.node n).votes v = some true)).card) :
    Inv cfg (winUpd n lease s) := by
  obtain ⟨hF, hM, hT, hL⟩ := hInv
  refine ⟨?_, ?_, ?_, ?_⟩
  · intro m T hlt
    show s.ledger m T = none
    by_cases hmn : m = n
    · subst hmn
      rw [winUpd_node_self] at hlt
      dsimp only at hlt
      exact hF m T hlt
    · rw [winUpd_node_other lease s hmn] at hlt
      exact hF m T hlt
  · intro g hg
    exact hM g hg
  · intro m w hrole hvote
    by_cases hmn : m = n
    · subst hmn
      rw [winUpd_node_self] at hrole
      dsimp only at hrole
      cases lease <;> simp at hrole
    · rw [winUpd_node_other lease s hmn] at hrole hvote ⊢
      exact hT m w hrole hvote
  · intro m hrole
    by_cases hmn : m = n
    · subst hmn
      refine ⟨cfg.filter (fun w => (s.node m).votes w = some true),
        Finset.filter_subset _ _, hq, ?_⟩
      intro w hw
      have hvote := (Finset.mem_filter.mp hw).2
      have := hT m w hr hvote
      rw [winUpd_node_self]
      dsimp only
      exact this
    · rw [winUpd_node_other lease s hmn] at hrole ⊢
      exact hL m hrole

@[simp] lemma ackWinUpd_node_self (n : Nat) (s : GState) :
    (ackWinUpd n s).node n = { s.node n with role := Role.leader } := by
  simp [ackWinUpd]

@[simp] lemma ackWinUpd_node_other {m n : Nat} (s : GState) (h : m ≠ n) :
    (ackWinUpd n s).node m = s.node m := by
  simp [ackWinUpd, h]

lemma inv_ackWinUpd (cfg : Finset Nat) (s : GState) (n : Nat) (hInv : Inv cfg s)
    (hr : (s.node n).role = Role.electionAck) : Inv cfg (ackWinUpd n s) := by
  obtain ⟨hF, hM, hT, hL⟩ := hInv
  refine ⟨?_, ?_, ?_, ?_⟩
  · intro m T hlt
    show s.ledger m T = none
    by_cases hmn : m = n
    · subst hmn
      rw [ackWinUpd_node_self] at hlt
      dsimp only at hlt
      exact hF m T hlt
    · rw [ackWinUpd_node_other s hmn] at hlt
      exact hF m T hlt
  · intro g hg
    exact hM g hg
  · intro m w hrole hvote
    by_cases hmn : m = n
    · subst hmn
      rw [ackWinUpd_node_self] at hrole
      exact Role.noConfusion hrole
    · rw [ackWinUpd_node_other s hmn] at hrole hvote ⊢
      exact hT m w hrole hvote
  · intro m hrole
    by_cases hmn : m = n
    · subst hmn
      obtain ⟨Q, h1, h2, h3⟩ := hL m (Or.inl hr)
      refine ⟨Q, h1, h2, ?_⟩
      intro w hw
      rw [ackWinUpd_node_self]
      dsimp only
      exact h3 w hw
    · rw [ackWinUpd_node_other s hmn] at hrole ⊢
      exact hL m hrole

lemma step_inv {cfg : Finset Nat} {s t : GState} (hInv : Inv cfg s) (hst : Step cfg s t) :
    Inv cfg t := by
  cases hst with
  | timeout n s h => exact inv_campaignUpd cfg s n hInv
  | grant v c s hv h => exact inv_grantUpd cfg s v c hInv h
  | stepDown n T s h => exact inv_stepDownUpd cfg s n T hInv h
  | recvGrant n v s hr hm => exact inv_recvGrantUpd cfg s n v hInv hr hm
  | win n lease s hr hq => exact inv_winUpd cfg s n lease hInv hr hq
  | ackWin n s hr => exact inv_ackWinUpd cfg s n hInv hr

lemma init_inv (cfg : Finset Nat) : Inv cfg initState := by
  refine ⟨?_, ?_, ?_, ?_⟩
  · intro n T h
    rfl
  · intro g hg
    exact hg.elim
  · intro n v hrole hvote
    exact Option.noConfusion hvote
  · intro n hrole
    rcases hrole with h | h <;> exact Role.noConfusion h

lemma reach_inv {cfg : Finset Nat} {s : GState} (h : Reachable cfg s) : Inv cfg s := by
  induction h with
  | refl => exact init_inv cfg
  | step hr hst ih => exact step_inv ih hst

lemma quorum_overlap (cfg Q₁ Q₂ : Finset Nat) (h₁ : Q₁ ⊆ cfg) (h₂ : Q₂ ⊆ cfg)
    (hc₁ : cfg.card / 2 + 1 ≤ Q₁.card) (hc₂ : cfg.card / 2 + 1 ≤ Q₂.card) :
    ∃ v, v ∈ Q₁ ∧ v ∈ Q₂ := by
  by_contra hno
  push_neg at hno
  have hdisj : Disjoint Q₁ Q₂ := Finset.disjoint_left.mpr hno
  have hcard : (Q₁ ∪ Q₂).card = Q₁.card + Q₂.card := Finset.card_union_of_disjoint hdisj
  have hle : (Q₁ ∪ Q₂).card ≤ cfg.card := Finset.card_le_card (Finset.union_subset h₁ h₂)
  omega

end ElectionModel

open ElectionModel

/-- C1 election safety: in every state reachable under any schedule of
timeouts, grants, deliveries and step-downs, two nodes that are both in
`Leader` state at the same term are the same node — at most one leader
per term across all nodes.  The guarantee rests on the persisted
`votedFor` being written at most once per voter per term and a leader
needing a strict-majority quorum of voter grants in its term. -/
theorem election_safety (cfg : Finset Nat) (s : GState) (hs : Reachable cfg s)
    (n₁ n₂ : Nat) (h₁ : (s.node n₁).role = Role.leader)
    (h₂ : (s.node n₂).role = Role.leader)
    (ht : (s.node n₁).term = (s.node n₂).term) : n₁ = n₂ := by
  obtain ⟨-, -, -, hL⟩ := reach_inv hs
  obtain ⟨Q₁, hQ₁c, hQ₁n, hQ₁⟩ := hL n₁ (Or.inr h₁)
  obtain ⟨Q₂, hQ₂c, hQ₂n, hQ₂⟩ := hL n₂ (Or.inr h₂)
  obtain ⟨v, hv₁, hv₂⟩ := quorum_overlap cfg Q₁ Q₂ hQ₁c hQ₂c hQ₁n hQ₂n
  have e₁ := hQ₁ v hv₁
  have e₂ := hQ₂ v hv₂
  rw [ht] at e₁
  rw [e₁] at e₂
  exact Option.some.inj e₂

/-- Witness for C1: with the single voter 1, the node campaigns and
wins on its own vote; the reachable final state has node 1 as leader
and the safety theorem applied to it yields the trivial equality. -/
theorem election_safety_witness :
    ((winUpd 1 false (campaignUpd 1 initState)).node 1).role = Role.leader ∧
      (1 : Nat) = 1 := by
  constructor
  · decide
  · exact election_safety {1} (winUpd 1 false (campaignUpd 1 initState))
      (Reachable.step
        (Reachable.step Reachable.refl (Step.timeout 1 initState (by decide)))
        (Step.win 1 false (campaignUpd 1 initState) (by decide) (by decide)))
      1 1 (by decide) (by decide) rfl
